import Mathlib

/-!
Verification development for the log-template matching engine of the
LogPMDatasetGenerator repository (`src/lib.rs`, modules `matching` and
`loading`).

Strings are modelled as lists of characters (`Str`).  The input lines of the
target program are ASCII, so byte offsets of the Rust code coincide with
character offsets of the model.  A compiled `regex::Regex` is modelled
abstractly by its observable interface (`RegexM`): the pattern text used by
its `Display` instance, the `is_match` predicate, and the `captures`
function returning the list of optional capture-group spans (index 0 being
the whole match, as in the `regex` crate).  Concrete regexes appearing in
examples are given by their semantic behaviour on strings.

Partial functions of the Rust code (panics, `unwrap`) are modelled with
explicit error/abort constructors.  The worker thread's interaction with the
fan-out queue is modelled by the trace of receive events it observes; the
result iterator's fan-in channel is modelled by an explicit channel state
(pending buffer plus producer-liveness flag), matching the semantics of the
`lockfree` mpsc channel: pending messages are still delivered after the
senders disconnect, and `NoSender` is only reported on an empty, disconnected
channel.
-/

namespace LogPM

/-- Strings of the model: lists of characters (ASCII byte = one `Char`). -/
abbrev Str := List Char

/-- Model of a compiled `regex::Regex` by its observable interface:
`pattern` is the text printed by `Display` (the compiled pattern source),
`is_match` the full test used by `Regex::is_match`, and `captures` the
capture list of `Regex::captures` (`none` when the regex does not match;
inside the list, index 0 is the whole match and index `k` the span of
capture group `k`, `none` for a group that did not participate). -/
structure RegexM where
  pattern : Str
  is_match : Str → Bool
  captures : Str → Option (List (Option (Nat × Nat)))

instance : Inhabited RegexM :=
  ⟨{ pattern := [], is_match := fun _ => false, captures := fun _ => none }⟩

/-- A span reported by the regex engine is well formed for a line of length
`len` when it is ordered and ends within the line.  The `regex` crate
guarantees this for every capture span. -/
def spanOk (len : Nat) (sp : Option (Nat × Nat)) : Bool :=
  match sp with
  | some (s, e) => decide (s ≤ e) && decide (e ≤ len)
  | none => true

/-- Position `j` lies inside the span `sp`. -/
def spanHit (sp : Option (Nat × Nat)) (j : Nat) : Bool :=
  match sp with
  | some (s, e) => decide (s ≤ j) && decide (j < e)
  | none => false

/-- Contract of the `regex` crate at one line, as used by `match_regex`:
whenever `is_match` holds, `captures` returns `some` list (so that the
`unwrap` in the source cannot panic) whose spans all lie within the line. -/
def capsOkAt (re : RegexM) (line : Str) : Bool :=
  if re.is_match line then
    match re.captures line with
    | some caps => caps.all (spanOk line.length)
    | none => false
  else true

/-- Position `j` lies inside some capture-group span (groups `1..`,
excluding the whole-match group 0) of the capture list `caps`; this is the
set of positions the source marks with '1'. -/
def inCapSpan (caps : List (Option (Nat × Nat))) (j : Nat) : Bool :=
  (caps.drop 1).any (fun sp => spanHit sp j)

/-- Rust `String::replace_range(start..stop, r)`: splice `r` in place of the
byte range `[start, stop)`. -/
def replace_range (s : Str) (start stop : Nat) (r : Str) : Str :=
  s.take start ++ r ++ s.drop stop

/-- One iteration of the inner loop of `match_regex`
(`mask.replace_range(mat.range(), "1".repeat(mat.end() - mat.start()))`),
skipped for a capture group that did not participate. -/
def capReplace (mask : Str) (sp : Option (Nat × Nat)) : Str :=
  match sp with
  | some (s, e) => replace_range mask s e (List.replicate (e - s) '1')
  | none => mask

/-- The inner loop of `match_regex`: `for i in 1..caps.len()` applies
`capReplace` to the running mask for every capture group of `caps`. -/
def applyCaps (caps : List (Option (Nat × Nat))) (mask : Str) : Str :=
  (caps.drop 1).foldl capReplace mask

/-- The `format!("double match\n{}\n{}\n{}", line, v[m as usize], v[i])`
message of `match_regex`; `Display` of a `Regex` prints its pattern. -/
def doubleMatchMsg (v : List RegexM) (line : Str) (m : Int) (i : Nat) : Str :=
  "double match\n".data ++ line ++ "\n".data ++
    (v.getD m.toNat default).pattern ++ "\n".data ++ (v.getD i default).pattern

/-- The `format!("No match found for '{}'", line)` message of `match_regex`. -/
def noMatchMsg (line : Str) : Str :=
  "No match found for '".data ++ line ++ "'".data

/-- Result of `match_regex`: `Ok((isize, String))`, `Err(String)`, or the
panic of the `caps.unwrap()` call (unreachable for a real regex). -/
inductive MatchResult where
  | ok (idx : Int) (mask : Str)
  | err (e : Str)
  | aborted
deriving DecidableEq

/-- State of the `for (i, re) in v.iter().enumerate()` loop of `match_regex`
when it finishes without an early return: the candidate index `m` and the
mask; `fail` is the early `return Err(...)` and `aborted` the `unwrap` panic. -/
inductive LoopOut where
  | done (m : Int) (mask : Str)
  | fail (e : Str)
  | aborted
deriving DecidableEq

/-- The `for (i, re) in v.iter().enumerate()` loop of `match_regex`,
processing the remaining templates `rest` starting at index `i`, with
candidate `m` (initially `-1`) and the running `mask`.  A template that does
not match is skipped; a second match returns the double-match error built
from the previous candidate `m` and the current index `i`; a first match
records the candidate and unions its capture spans into the mask. -/
def mrLoop (v : List RegexM) (line : Str) :
    List RegexM → Nat → Int → Str → LoopOut
  | [], _, m, mask => .done m mask
  | re :: rest, i, m, mask =>
    if re.is_match line = true then
      if m ≠ -1 then .fail (doubleMatchMsg v line m i)
      else
        match re.captures line with
        | some caps => mrLoop v line rest (i + 1) (Int.ofNat i) (applyCaps caps mask)
        | none => .aborted
    else mrLoop v line rest (i + 1) m mask

/-- `fn match_regex(v: &[Regex], line: &str) -> Result<(isize, String), String>`:
start with `m = -1` and a mask of '0's of the line's length, run the scan
loop, and finish with `Ok((m, mask))` when a candidate was found, otherwise
the no-match error. -/
def match_regex (v : List RegexM) (line : Str) : MatchResult :=
  match mrLoop v line v 0 (-1) (List.replicate line.length '0') with
  | .done m mask => if m ≠ -1 then .ok m mask else .err (noMatchMsg line)
  | .fail e => .err e
  | .aborted => .aborted

/-- Semantic model of the compiled regex `^foo (\d+)$` of the spec's
examples: matches `"foo "` followed by one or more digits; group 1 spans the
digits (byte 4 to the end). -/
def fooCapRe : RegexM where
  pattern := "^foo (\\d+)$".data
  is_match := fun line =>
    line.take 4 == "foo ".data && !(line.drop 4).isEmpty &&
      (line.drop 4).all (fun c => c.isDigit)
  captures := fun line =>
    if line.take 4 == "foo ".data && !(line.drop 4).isEmpty &&
        (line.drop 4).all (fun c => c.isDigit) then
      some [some (0, line.length), some (4, line.length)]
    else none

/-- Semantic model of the compiled regex `^foo \d+$` of the spec's examples:
same language as `fooCapRe` but with no capture group (only group 0). -/
def fooPlainRe : RegexM where
  pattern := "^foo \\d+$".data
  is_match := fun line =>
    line.take 4 == "foo ".data && !(line.drop 4).isEmpty &&
      (line.drop 4).all (fun c => c.isDigit)
  captures := fun line =>
    if line.take 4 == "foo ".data && !(line.drop 4).isEmpty &&
        (line.drop 4).all (fun c => c.isDigit) then
      some [some (0, line.length)]
    else none

/-- Character class `\w` of the `regex` crate restricted to ASCII:
alphanumeric or underscore. -/
def wordChar (c : Char) : Bool :=
  c.isAlphanum || c == '_'

/-- Semantic model of the compiled regex `^bar (\w+)$` of the spec's
examples: matches `"bar "` followed by one or more word characters; group 1
spans them (byte 4 to the end). -/
def barCapRe : RegexM where
  pattern := "^bar (\\w+)$".data
  is_match := fun line =>
    line.take 4 == "bar ".data && !(line.drop 4).isEmpty &&
      (line.drop 4).all wordChar
  captures := fun line =>
    if line.take 4 == "bar ".data && !(line.drop 4).isEmpty &&
        (line.drop 4).all wordChar then
      some [some (0, line.length), some (4, line.length)]
    else none

/-- Semantic model of the compiled regex `^foo 123$`: matches exactly the
line `"foo 123"`, no capture group. -/
def fooLitRe : RegexM where
  pattern := "^foo 123$".data
  is_match := fun line => line == "foo 123".data
  captures := fun line =>
    if line == "foo 123".data then some [some (0, 7)] else none

/-- The spec's example bank `[^foo (\d+)$, ^bar (\w+)$]`. -/
def exBank : List RegexM := [fooCapRe, barCapRe]

/-- A bank in which three templates all match `"foo 123"`. -/
def ambBank : List RegexM := [fooPlainRe, fooCapRe, fooLitRe]

/-- The `Request` enum of the `matching` module. -/
inductive Request where
  | Parse (msg : Str)
  | EndOfStream
deriving DecidableEq

/-- The `Response` struct of the `matching` module; `idx` holds the value of
the `u16` field (always below 2 ^ 16). -/
structure Response where
  msg : Str
  msk : Str
  idx : Nat
deriving DecidableEq

/-- One observation a worker makes on its receive call on the fan-out
`spmc` channel: a delivered `Request`, an empty-queue poll
(`RecvErr::NoMessage`), or a closed producer (`RecvErr::NoSender`). -/
inductive RecvEvent where
  | Ok (r : Request)
  | NoMessage
  | NoSender
deriving DecidableEq

/-- How a run of `worker_loop` on a finite trace of receive events ended:
the `break` on `EndOfStream` (`finished`), a panic (`aborted`), or the trace
ran out while the loop was still polling (`running`). -/
inductive WorkerExit where
  | finished
  | aborted
  | running
deriving DecidableEq

/-- `fn worker_loop(rx, tx, regex_vec)` as a function of the trace of receive
events the worker observes on the fan-out channel: it returns the list of
`Response`s the worker sends on the fan-in channel, in order, together with
how the loop ended.  A `Parse` request runs `match_regex`; a success sends
one `Response` (with the index cast to `u16`, i.e. reduced modulo 2 ^ 16), a
failure is logged (`error!`) and the message dropped; `EndOfStream` breaks
the loop; `NoMessage` retries; `NoSender` hits the
`panic!("Sender channel closed before worker is finished")` call. -/
def worker_loop (rv : List RegexM) : List RecvEvent → List Response × WorkerExit
  | [] => ([], .running)
  | .Ok (.Parse msg) :: rest =>
    (match match_regex rv msg with
     | .ok i msk =>
       let out := worker_loop rv rest
       ({ msg := msg, msk := msk, idx := i.toNat % 65536 } :: out.1, out.2)
     | .err _ => worker_loop rv rest
     | .aborted => ([], .aborted))
  | .Ok .EndOfStream :: _ => ([], .finished)
  | .NoMessage :: rest => worker_loop rv rest
  | .NoSender :: _ => ([], .aborted)

/-- The messages carried by the `Parse` requests of a trace of receive
events. -/
def messagesOf (evs : List RecvEvent) : List Str :=
  evs.filterMap (fun e =>
    match e with
    | .Ok (.Parse msg) => some msg
    | _ => none)

/-- The `ThreadPoolInput` struct: the fan-out queue is modelled by the list
of requests enqueued on it (in order), and the `join_handles` vector by the
number of spawned workers it holds. -/
structure ThreadPoolInput where
  input : List Request
  join_handles : Nat

/-- `ThreadPoolInput::submit`: enqueue one `Parse` request. -/
def ThreadPoolInput.submit (p : ThreadPoolInput) (msg : Str) : ThreadPoolInput :=
  { p with input := p.input ++ [Request.Parse msg] }

/-- `ThreadPoolInput::end_of_stream`: enqueue one `EndOfStream` request per
element of `join_handles`. -/
def ThreadPoolInput.end_of_stream (p : ThreadPoolInput) : ThreadPoolInput :=
  { p with input := p.input ++ List.replicate p.join_handles Request.EndOfStream }

/-- `fn start_thread_pool(regex_vec, worker_count)`, controller side: spawns
`worker_count` workers (one join handle each) and returns the input handle
with an empty queue. -/
def start_thread_pool (_regex_vec : List RegexM) (worker_count : Nat) :
    ThreadPoolInput :=
  { input := [], join_handles := worker_count }

/-- The `RecvErr` enum of the `lockfree` channels. -/
inductive RecvErr where
  | NoMessage
  | NoSender
deriving DecidableEq

/-- State of the fan-in `mpsc` channel as seen by its single consumer: the
buffered responses not yet received, and whether some sender handle is still
connected. -/
structure ChannelState where
  buffer : List Response
  connected : Bool
deriving DecidableEq

/-- `mpsc::Receiver::recv` of the `lockfree` crate: a buffered message is
delivered even after the senders disconnected; an empty buffer reports
`NoMessage` while a sender is alive and `NoSender` once all senders are
gone. -/
def mpsc_recv (st : ChannelState) : Except RecvErr Response × ChannelState :=
  match st.buffer with
  | r :: rest => (.ok r, { st with buffer := rest })
  | [] =>
    if st.connected then (.error RecvErr.NoMessage, st)
    else (.error RecvErr.NoSender, st)

/-- `<ThreadPoolOutputIter as Iterator>::next`: loop on `recv`; `Ok(res)`
returns `Some(res)`, `NoMessage` continues the loop, `NoSender` returns
`None`.  Since a `NoMessage` poll leaves the channel state unchanged, the
`continue` branch is modelled as `none`: the call is still blocked polling
and only an action of another thread (not part of this state) can unblock
it. -/
def iter_next (st : ChannelState) : Option (Option Response × ChannelState) :=
  match mpsc_recv st with
  | (.ok r, st₂) => some (some r, st₂)
  | (.error RecvErr.NoMessage, _) => none
  | (.error RecvErr.NoSender, st₂) => some (none, st₂)

/-- `format!("^{}$", line)` of `load_regex`: anchor a pattern to a
full-string match. -/
def anchor (l : Str) : Str :=
  '^' :: (l ++ ['$'])

/-- The loop of `load_regex` over the lines of the pattern file, starting at
index `i`; `compile` models `Regex::new`, and the
`panic!("Unable to compile regex at {}", i)` call is the `.error i` case
carrying the offending index. -/
def load_regex_go (compile : Str → Option RegexM) :
    List Str → Nat → Except Nat (List RegexM)
  | [], _ => .ok []
  | l :: rest, i =>
    match compile (anchor l) with
    | some re => (load_regex_go compile rest (i + 1)).map (fun v => re :: v)
    | none => .error i

/-- `fn load_regex(file)` as a function of the lines read from the pattern
file: each line is anchored with `^`/`$` and compiled; the first compilation
failure aborts with its index. -/
def load_regex (compile : Str → Option RegexM) (lines : List Str) :
    Except Nat (List RegexM) :=
  load_regex_go compile lines 0

/-- Rust `str::trim`: remove leading and trailing whitespace. -/
def trim (s : Str) : Str :=
  ((s.dropWhile Char.isWhitespace).reverse.dropWhile Char.isWhitespace).reverse

/-- Rust byte slicing `line[i..]` as used by the extractor closures: for the
ASCII input lines of the target datasets it yields the suffix from position
`i`, and panics (error case) when `i` exceeds the line's length. -/
def sliceFrom (line : Str) (i : Nat) : Except Str Str :=
  if i ≤ line.length then .ok (line.drop i)
  else .error ("byte index out of bounds".data)

/-- Rust `s.splitn(2, c).last().unwrap()`: everything after the first
occurrence of `c`, or all of `s` when `c` does not occur (`splitn` always
yields at least one piece, so `last()` is never `None`). -/
def splitn2_last (s : Str) (c : Char) : Str :=
  match s.dropWhile (fun x => x != c) with
  | [] => s
  | _ :: rest => rest

/-- The closure `message_extractor` returns for the dataset name
`"proxifier"` (`Some(line[17..].trim().to_string())`): the `Except` error
case is the panic of the unguarded slice. -/
def proxifier_extractor (line : Str) : Except Str (Option Str) :=
  (sliceFrom line 17).map (fun s => some (trim s))

/-- The closure `message_extractor` returns for the dataset name
`"android"`: slice at byte 33, take what follows the first `':'`, return
`None` for an empty remainder and the trimmed remainder otherwise. -/
def android_extractor (line : Str) : Except Str (Option Str) :=
  (sliceFrom line 33).map (fun s =>
    let msg := splitn2_last s ':'
    if msg.isEmpty then none else some (trim msg))

/-- The closure `message_extractor` returns for the dataset name
`"apache"`: slice at byte 28, split once at `']'`; with no `']'` return
`None`, otherwise trim what follows it and return `None` when empty. -/
def apache_extractor (line : Str) : Except Str (Option Str) :=
  (sliceFrom line 28).map (fun s =>
    if s.contains ']' then
      let msg := trim (splitn2_last s ']')
      if msg.isEmpty then none else some (trim msg)
    else none)

/-- The needle occurs as a contiguous run inside the haystack (used to state
that an error message does or does not name a template's pattern). -/
def containsSeq (needle hay : Str) : Bool :=
  (List.range (hay.length + 1)).any (fun k => needle.isPrefixOf (hay.drop k))

/-- The response the spec's example produces: message `"foo 123"`, mask
`"0000111"`, template id 0. -/
def exResp : Response :=
  { msg := "foo 123".data, msk := "0000111".data, idx := 0 }

/-- A worker trace delivering the spec's example message and then the
shutdown token. -/
def exEvs : List RecvEvent :=
  [RecvEvent.Ok (Request.Parse ("foo 123".data)), RecvEvent.Ok Request.EndOfStream]

/-- A toy stand-in for `Regex::new` used to exercise `load_regex`: patterns
of length at most 4 compile, longer ones do not. -/
def toyCompile (p : Str) : Option RegexM :=
  if p.length ≤ 4 then
    some { pattern := p, is_match := fun _ => false, captures := fun _ => none }
  else none

theorem mrLoop_skip {v : List RegexM} {line : Str} {re : RegexM}
    {rest : List RegexM} {i : Nat} {m : Int} {mask : Str}
    (h : re.is_match line = false) :
    mrLoop v line (re :: rest) i m mask = mrLoop v line rest (i + 1) m mask := by
  simp [mrLoop, h]

theorem mrLoop_hit_fresh {v : List RegexM} {line : Str} {re : RegexM}
    {rest : List RegexM} {i : Nat} {mask : Str}
    {caps : List (Option (Nat × Nat))}
    (hm : re.is_match line = true) (hc : re.captures line = some caps) :
    mrLoop v line (re :: rest) i (-1) mask =
      mrLoop v line rest (i + 1) (Int.ofNat i) (applyCaps caps mask) := by
  simp [mrLoop, hm, hc]

theorem mrLoop_hit_abort {v : List RegexM} {line : Str} {re : RegexM}
    {rest : List RegexM} {i : Nat} {mask : Str}
    (hm : re.is_match line = true) (hc : re.captures line = none) :
    mrLoop v line (re :: rest) i (-1) mask = .aborted := by
  simp [mrLoop, hm, hc]

theorem mrLoop_hit_second {v : List RegexM} {line : Str} {re : RegexM}
    {rest : List RegexM} {i : Nat} {m : Int} {mask : Str}
    (hm : re.is_match line = true) (hne : m ≠ -1) :
    mrLoop v line (re :: rest) i m mask = .fail (doubleMatchMsg v line m i) := by
  simp [mrLoop, hm, hne]

theorem mrLoop_clean_append {v : List RegexM} {line : Str} {l₁ l₂ : List RegexM}
    {m : Int} {mask : Str}
    (h : ∀ re ∈ l₁, re.is_match line = false) :
    ∀ i : Nat, mrLoop v line (l₁ ++ l₂) i m mask =
      mrLoop v line l₂ (i + l₁.length) m mask := by
  induction l₁ with
  | nil => intro i; simp
  | cons a t ih =>
    intro i
    rw [List.cons_append, mrLoop_skip (h a (by simp)),
      ih (fun re hre => h re (by simp [hre]))]
    have harith : i + 1 + t.length = i + (a :: t).length := by
      simp [List.length_cons]; omega
    rw [harith]

theorem mrLoop_clean {v : List RegexM} {line : Str} {l : List RegexM}
    {m : Int} {mask : Str}
    (h : ∀ re ∈ l, re.is_match line = false) :
    ∀ i : Nat, mrLoop v line l i m mask = .done m mask := by
  intro i
  have h₂ := @mrLoop_clean_append v line l [] m mask h i
  simpa using h₂

/-- First-occurrence decomposition of a list with respect to a boolean
predicate: either no element satisfies it, or the list splits at the first
element that does. -/
theorem first_split {α : Type} (p : α → Bool) (l : List α) :
    (∀ x ∈ l, p x = false) ∨
      ∃ l₁ x l₂, l = l₁ ++ x :: l₂ ∧ p x = true ∧ ∀ y ∈ l₁, p y = false := by
  induction l with
  | nil => exact Or.inl (by simp)
  | cons a t ih =>
    by_cases hpa : p a = true
    · exact Or.inr ⟨[], a, t, by simp, hpa, by simp⟩
    · have hpa' : p a = false := by
        cases hv : p a with
        | false => rfl
        | true => exact absurd hv hpa
      rcases ih with hnone | ⟨l₁, x, l₂, heq, hx, hclean⟩
      · refine Or.inl ?_
        intro y hy
        rcases List.mem_cons.mp hy with rfl | hyt
        · exact hpa'
        · exact hnone y hyt
      · refine Or.inr ⟨a :: l₁, x, l₂, by simp [heq], hx, ?_⟩
        intro y hy
        rcases List.mem_cons.mp hy with rfl | hyl
        · exact hpa'
        · exact hclean y hyl

theorem capReplace_length {mask : Str} {sp : Option (Nat × Nat)}
    (h : spanOk mask.length sp = true) :
    (capReplace mask sp).length = mask.length := by
  cases sp with
  | none => rfl
  | some se =>
    obtain ⟨s, e⟩ := se
    have hse : s ≤ e ∧ e ≤ mask.length := by
      simpa [spanOk] using h
    simp only [capReplace, replace_range, List.length_append, List.length_take,
      List.length_drop, List.length_replicate]
    omega

theorem capReplace_getD {mask : Str} {sp : Option (Nat × Nat)}
    (h : spanOk mask.length sp = true) {j : Nat} (hj : j < mask.length) :
    (capReplace mask sp).getD j ' ' =
      if spanHit sp j then '1' else mask.getD j ' ' := by
  cases sp with
  | none => simp [capReplace, spanHit]
  | some se =>
    obtain ⟨s, e⟩ := se
    have hse : s ≤ e ∧ e ≤ mask.length := by
      simpa [spanOk] using h
    have hlen : (capReplace mask (some (s, e))).length = mask.length :=
      capReplace_length h
    rw [List.getD_eq_getElem _ _ (by omega : j < (capReplace mask (some (s, e))).length),
      List.getD_eq_getElem _ _ hj]
    simp only [capReplace, replace_range, List.append_assoc]
    have hts : (mask.take s).length = s := by
      rw [List.length_take]; omega
    have hrl : (List.replicate (e - s) '1').length = e - s :=
      List.length_replicate (e - s) '1'
    have hdl : (mask.drop e).length = mask.length - e := List.length_drop e mask
    by_cases hjs : j < s
    · have hcond : spanHit (some (s, e)) j = false := by
        simp only [spanHit, Bool.and_eq_false_iff, decide_eq_false_iff_not]
        left; omega
      rw [List.getElem_append_left (by omega : j < (mask.take s).length)]
      simp [hcond, List.getElem_take]
    · rw [List.getElem_append_right (by omega : (mask.take s).length ≤ j)]
      by_cases hje : j < e
      · have hcond : spanHit (some (s, e)) j = true := by
          simp only [spanHit, Bool.and_eq_true, decide_eq_true_eq]
          omega
        rw [List.getElem_append_left
          (by omega : j - (mask.take s).length < (List.replicate (e - s) '1').length)]
        simp [hcond, List.getElem_replicate]
      · have hcond : spanHit (some (s, e)) j = false := by
          simp only [spanHit, Bool.and_eq_false_iff, decide_eq_false_iff_not]
          right; omega
        rw [List.getElem_append_right
          (by omega : (List.replicate (e - s) '1').length ≤ j - (mask.take s).length)]
        have hidx : j - (mask.take s).length - (List.replicate (e - s) '1').length
            = j - e := by omega
        simp only [hidx, List.getElem_drop, hcond, Bool.false_eq_true, if_false]
        have hidx₂ : e + (j - e) = j := by omega
        simp only [hidx₂]

theorem foldl_capReplace_length (spans : List (Option (Nat × Nat))) :
    ∀ mask : Str, (∀ sp ∈ spans, spanOk mask.length sp = true) →
      (spans.foldl capReplace mask).length = mask.length := by
  induction spans with
  | nil => intro mask _; rfl
  | cons sp rest ih =>
    intro mask h
    have h₁ : spanOk mask.length sp = true := h sp (by simp)
    have hlen := capReplace_length h₁
    rw [List.foldl_cons,
      ih (capReplace mask sp) (fun sp₂ hsp₂ => by
        rw [hlen]; exact h sp₂ (by simp [hsp₂])), hlen]

theorem foldl_capReplace_getD (spans : List (Option (Nat × Nat))) :
    ∀ mask : Str, (∀ sp ∈ spans, spanOk mask.length sp = true) →
      ∀ j : Nat, j < mask.length →
      (spans.foldl capReplace mask).getD j ' ' =
        if spans.any (fun sp => spanHit sp j) then '1' else mask.getD j ' ' := by
  induction spans with
  | nil => intro mask _ j _; simp
  | cons sp rest ih =>
    intro mask h j hj
    have h₁ : spanOk mask.length sp = true := h sp (by simp)
    have hlen := capReplace_length h₁
    rw [List.foldl_cons,
      ih (capReplace mask sp) (fun sp₂ hsp₂ => by
        rw [hlen]; exact h sp₂ (by simp [hsp₂])) j (by omega),
      capReplace_getD h₁ hj]
    cases hr : rest.any (fun sp => spanHit sp j) with
    | true => simp [hr]
    | false =>
      cases hs : spanHit sp j with
      | true => simp [hr, hs]
      | false => simp [hr, hs]

theorem applyCaps_length {caps : List (Option (Nat × Nat))} {mask : Str}
    (h : ∀ sp ∈ caps.drop 1, spanOk mask.length sp = true) :
    (applyCaps caps mask).length = mask.length :=
  foldl_capReplace_length (caps.drop 1) mask h

theorem applyCaps_getD {caps : List (Option (Nat × Nat))} {mask : Str}
    (h : ∀ sp ∈ caps.drop 1, spanOk mask.length sp = true)
    {j : Nat} (hj : j < mask.length) :
    (applyCaps caps mask).getD j ' ' =
      if inCapSpan caps j then '1' else mask.getD j ' ' :=
  foldl_capReplace_getD (caps.drop 1) mask h j hj

theorem replicate_zero_getD {n j : Nat} (hj : j < n) :
    (List.replicate n '0').getD j ' ' = '0' := by
  rw [List.getD_eq_getElem _ _ (by simpa using hj), List.getElem_replicate]

/-- The mask produced for a fresh match: its length is the line's length and
position `j` carries '1' exactly when `j` lies in a capture-group span. -/
theorem mask_spec {line : Str} {caps : List (Option (Nat × Nat))}
    (h : ∀ sp ∈ caps.drop 1, spanOk line.length sp = true) :
    (applyCaps caps (List.replicate line.length '0')).length = line.length ∧
      ∀ j : Nat, j < line.length →
        (applyCaps caps (List.replicate line.length '0')).getD j ' ' =
          if inCapSpan caps j then '1' else '0' := by
  have hbase : (List.replicate line.length '0').length = line.length :=
    List.length_replicate line.length '0'
  constructor
  · rw [applyCaps_length (by rw [hbase]; exact h), hbase]
  · intro j hj
    rw [applyCaps_getD (by rw [hbase]; exact h) (by omega),
      replicate_zero_getD hj]

/-- Unfolding of the per-line regex contract: a matching template has a
capture list whose spans all lie within the line. -/
theorem capsOkAt_spec {re : RegexM} {line : Str}
    (hok : capsOkAt re line = true) (hm : re.is_match line = true) :
    ∃ caps, re.captures line = some caps ∧
      ∀ sp ∈ caps, spanOk line.length sp = true := by
  unfold capsOkAt at hok
  rw [hm] at hok
  simp only [if_true] at hok
  cases hcap : re.captures line with
  | none => rw [hcap] at hok; exact absurd hok (by simp)
  | some caps =>
    rw [hcap] at hok
    exact ⟨caps, rfl, List.all_eq_true.mp hok⟩

theorem take_clean {v : List RegexM} {line : Str} {n : Nat}
    (h : ∀ j, j < n → j < v.length → (v.getD j default).is_match line = false) :
    ∀ re ∈ v.take n, re.is_match line = false := by
  intro re hre
  obtain ⟨k, hk, hkeq⟩ := List.getElem_of_mem hre
  have hkn : k < n := by
    have := hk; rw [List.length_take] at this; omega
  have hkv : k < v.length := by
    have := hk; rw [List.length_take] at this; omega
  have hget : (v.take n)[k] = v[k] := List.getElem_take v
  have hfalse := h k hkn hkv
  rw [List.getD_eq_getElem _ _ hkv] at hfalse
  rw [← hkeq, hget]
  exact hfalse

theorem drop_clean {v : List RegexM} {line : Str} {n : Nat}
    (h : ∀ j, n ≤ j → j < v.length → (v.getD j default).is_match line = false) :
    ∀ re ∈ v.drop n, re.is_match line = false := by
  intro re hre
  obtain ⟨k, hk, hkeq⟩ := List.getElem_of_mem hre
  have hkv : n + k < v.length := by
    have := hk; rw [List.length_drop] at this; omega
  have hget : (v.drop n)[k] = v[n + k] := List.getElem_drop v
  have hfalse := h (n + k) (by omega) hkv
  rw [List.getD_eq_getElem _ _ hkv] at hfalse
  rw [← hkeq, hget]
  exact hfalse

theorem drop_getD {v : List RegexM} {n j : Nat} (h : n + j < v.length) :
    (v.drop n).getD j default = v.getD (n + j) default := by
  rw [List.getD_eq_getElem _ _ (by rw [List.length_drop]; omega),
    List.getElem_drop, List.getD_eq_getElem _ _ h]

/-- Decomposition of a list at index `n`. -/
theorem split_at_getD {v : List RegexM} {n : Nat} (h : n < v.length) :
    v = v.take n ++ (v.getD n default) :: v.drop (n + 1) := by
  rw [List.getD_eq_getElem _ _ h]
  conv_lhs => rw [← List.take_append_drop n v, List.drop_eq_getElem_cons h]

/-- Running the scan over a clean segment, then a fresh match: the candidate
becomes the matching template's index and the mask absorbs its capture
spans. -/
theorem mrLoop_single_then {v : List RegexM} {line : Str} {A : List RegexM}
    {re : RegexM} {B : List RegexM} {mask : Str}
    {caps : List (Option (Nat × Nat))}
    (hA : ∀ r ∈ A, r.is_match line = false)
    (hm : re.is_match line = true)
    (hc : re.captures line = some caps) :
    mrLoop v line (A ++ re :: B) 0 (-1) mask =
      mrLoop v line B (A.length + 1) (Int.ofNat A.length) (applyCaps caps mask) := by
  rw [mrLoop_clean_append hA 0, Nat.zero_add, mrLoop_hit_fresh hm hc]

/-- When the bank contains exactly one template matching the line (at index
`i₀`, with the regex contract holding there), `match_regex` succeeds with
`i₀` and the mask built from that template's capture spans. -/
theorem match_regex_unique {v : List RegexM} {line : Str} {i₀ : Nat}
    (hok : v.all (fun re => capsOkAt re line) = true)
    (hi : i₀ < v.length)
    (hm : (v.getD i₀ default).is_match line = true)
    (huni : ∀ j, j < v.length → (v.getD j default).is_match line = true → j = i₀) :
    ∃ caps, (v.getD i₀ default).captures line = some caps ∧
      match_regex v line =
        .ok (Int.ofNat i₀) (applyCaps caps (List.replicate line.length '0')) := by
  have hcap : capsOkAt (v.getD i₀ default) line = true := by
    have := List.all_eq_true.mp hok (v.getD i₀ default)
    exact this (by rw [List.getD_eq_getElem _ _ hi]; exact List.getElem_mem hi)
  obtain ⟨caps, hc, _⟩ := capsOkAt_spec hcap hm
  refine ⟨caps, hc, ?_⟩
  have hA : ∀ r ∈ v.take i₀, r.is_match line = false := by
    refine take_clean ?_
    intro j hj hjv
    cases hb : (v.getD j default).is_match line with
    | false => rfl
    | true => exact absurd (huni j hjv hb) (by omega)
  have hB : ∀ r ∈ v.drop (i₀ + 1), r.is_match line = false := by
    refine drop_clean ?_
    intro j hj hjv
    cases hb : (v.getD j default).is_match line with
    | false => rfl
    | true => exact absurd (huni j hjv hb) (by omega)
  have htl : (v.take i₀).length = i₀ := by rw [List.length_take]; omega
  have hloop : mrLoop v line v 0 (-1) (List.replicate line.length '0') =
      .done (Int.ofNat i₀) (applyCaps caps (List.replicate line.length '0')) := by
    conv_lhs => rw [split_at_getD hi]
    rw [mrLoop_single_then hA hm hc, mrLoop_clean hB, htl]
  unfold match_regex
  rw [hloop]
  have hne : (Int.ofNat i₀ : Int) ≠ -1 := by
    simp only [Int.ofNat_eq_natCast]; omega
  simp [hne]

theorem split_getD_self {A : List RegexM} {x : RegexM} {B : List RegexM} :
    (A ++ x :: B).getD A.length default = x := by
  have hlen : A.length < (A ++ x :: B).length := by
    rw [List.length_append, List.length_cons]; omega
  rw [List.getD_eq_getElem _ _ hlen, List.getElem_append_right (Nat.le_refl A.length)]
  simp

theorem split_unique {A : List RegexM} {x : RegexM} {B : List RegexM} {line : Str}
    (hA : ∀ r ∈ A, r.is_match line = false)
    (hB : ∀ r ∈ B, r.is_match line = false) :
    ∀ j, j < (A ++ x :: B).length →
      ((A ++ x :: B).getD j default).is_match line = true → j = A.length := by
  intro j hj hmatch
  by_cases hjA : j < A.length
  · have hgl : (A ++ x :: B).getD j default = A[j] := by
      rw [List.getD_eq_getElem _ _ hj, List.getElem_append_left hjA]
    rw [hgl] at hmatch
    rw [hA A[j] (List.getElem_mem hjA)] at hmatch
    exact absurd hmatch (by simp)
  · by_cases hje : j = A.length
    · exact hje
    · exfalso
      have hjl : j < A.length + (B.length + 1) := by
        rw [List.length_append, List.length_cons] at hj; omega
      have hkB : j - (A.length + 1) < B.length := by omega
      have hgl : (A ++ x :: B).getD j default = B[j - (A.length + 1)] := by
        rw [List.getD_eq_getElem _ _ hj]
        have h2 : (A ++ x :: B) = (A ++ [x]) ++ B := by simp
        rw [List.getElem_of_eq h2, List.getElem_append_right (by simp; omega)]
        simp
      rw [hgl] at hmatch
      rw [hB B[j - (A.length + 1)] (List.getElem_mem hkB)] at hmatch
      exact absurd hmatch (by simp)

/-- Inversion of a `match_regex` success: an `Ok((m, mask))` result can only
come from a bank with exactly one matching template; `m` is its index
(nonnegative and within the bank) and `mask` the union of its capture
spans painted over a fresh '0' mask. -/
theorem match_regex_ok_inv {v : List RegexM} {line : Str} {i : Int} {mask : Str}
    (h : match_regex v line = .ok i mask) :
    ∃ i₀ caps, i = Int.ofNat i₀ ∧ i₀ < v.length ∧
      (v.getD i₀ default).is_match line = true ∧
      (∀ j, j < v.length → (v.getD j default).is_match line = true → j = i₀) ∧
      (v.getD i₀ default).captures line = some caps ∧
      mask = applyCaps caps (List.replicate line.length '0') := by
  rcases first_split (fun re => re.is_match line) v with hnone | ⟨A, x, B, hv, hx, hA⟩
  · exfalso
    have hloop := @mrLoop_clean v line v (-1)
      (List.replicate line.length '0') hnone 0
    unfold match_regex at h
    rw [hloop] at h
    simp at h
  · subst hv
    cases hcx : x.captures line with
    | none =>
      exfalso
      have hloop : mrLoop (A ++ x :: B) line (A ++ x :: B) 0 (-1)
          (List.replicate line.length '0') = .aborted := by
        rw [mrLoop_clean_append hA 0, Nat.zero_add, mrLoop_hit_abort hx hcx]
      unfold match_regex at h
      rw [hloop] at h
      simp at h
    | some caps =>
      have hne : (Int.ofNat A.length : Int) ≠ -1 := by
        simp only [Int.ofNat_eq_natCast]; omega
      rcases first_split (fun re => re.is_match line) B with
        hBnone | ⟨B₁, y, B₂, hB, hy, hB₁⟩
      · have hloop : mrLoop (A ++ x :: B) line (A ++ x :: B) 0 (-1)
            (List.replicate line.length '0') =
            .done (Int.ofNat A.length)
              (applyCaps caps (List.replicate line.length '0')) := by
          rw [mrLoop_single_then hA hx hcx, mrLoop_clean hBnone]
        have hmr : match_regex (A ++ x :: B) line =
            .ok (Int.ofNat A.length)
              (applyCaps caps (List.replicate line.length '0')) := by
          unfold match_regex
          rw [hloop]
          simp [hne]
        rw [hmr] at h
        injection h with h1 h2
        refine ⟨A.length, caps, h1.symm, ?_, ?_, ?_, ?_, h2.symm⟩
        · rw [List.length_append, List.length_cons]; omega
        · rw [split_getD_self]; exact hx
        · exact split_unique hA hBnone
        · rw [split_getD_self]; exact hcx
      · subst hB
        exfalso
        have hloop : mrLoop (A ++ x :: (B₁ ++ y :: B₂)) line
            (A ++ x :: (B₁ ++ y :: B₂)) 0 (-1) (List.replicate line.length '0') =
            .fail (doubleMatchMsg (A ++ x :: (B₁ ++ y :: B₂)) line
              (Int.ofNat A.length) (A.length + 1 + B₁.length)) := by
          rw [mrLoop_single_then hA hx hcx,
            mrLoop_clean_append hB₁ (A.length + 1), mrLoop_hit_second hy hne]
        unfold match_regex at h
        rw [hloop] at h
        simp at h

/-- When the first two matching templates of the bank are at indices `i₁ <
i₂` (nothing before `i₂` other than `i₁` matches), `match_regex` stops at
`i₂` and returns the double-match error built from templates `i₁` and `i₂`;
later templates are not examined and do not appear in the error. -/
theorem match_regex_double {v : List RegexM} {line : Str} {i₁ i₂ : Nat}
    (h12 : i₁ < i₂) (h2 : i₂ < v.length)
    (hm1 : (v.getD i₁ default).is_match line = true)
    (hm2 : (v.getD i₂ default).is_match line = true)
    (hclean : ∀ j, j < i₂ → j ≠ i₁ → (v.getD j default).is_match line = false)
    (hcaps : capsOkAt (v.getD i₁ default) line = true) :
    match_regex v line = .err (doubleMatchMsg v line (Int.ofNat i₁) i₂) := by
  have h1 : i₁ < v.length := by omega
  obtain ⟨caps, hc, _⟩ := capsOkAt_spec hcaps hm1
  have hne : (Int.ofNat i₁ : Int) ≠ -1 := by
    simp only [Int.ofNat_eq_natCast]; omega
  have hA : ∀ r ∈ v.take i₁, r.is_match line = false :=
    take_clean (fun j hj _ => hclean j (by omega) (by omega))
  have hC : ∀ r ∈ (v.drop (i₁ + 1)).take (i₂ - i₁ - 1), r.is_match line = false := by
    intro r hr
    obtain ⟨k, hk, hkeq⟩ := List.getElem_of_mem hr
    have hkl : k < i₂ - i₁ - 1 := by
      have := hk; rw [List.length_take] at this; omega
    have hkd : k < (v.drop (i₁ + 1)).length := by
      rw [List.length_drop]; omega
    have hkv : i₁ + 1 + k < v.length := by omega
    have hg : ((v.drop (i₁ + 1)).take (i₂ - i₁ - 1))[k] = (v.drop (i₁ + 1))[k] :=
      List.getElem_take _
    have hg2 : (v.drop (i₁ + 1))[k] = v[i₁ + 1 + k] := List.getElem_drop v
    have hj := hclean (i₁ + 1 + k) (by omega) (by omega)
    rw [List.getD_eq_getElem _ _ hkv] at hj
    rw [← hkeq, hg, hg2]
    exact hj
  have hsplit1 : v = v.take i₁ ++ (v.getD i₁ default) :: v.drop (i₁ + 1) :=
    split_at_getD h1
  have hsplit2 : v.drop (i₁ + 1) =
      (v.drop (i₁ + 1)).take (i₂ - i₁ - 1) ++
        (v.getD i₂ default) :: v.drop (i₂ + 1) := by
    conv_lhs => rw [← List.take_append_drop (i₂ - i₁ - 1) (v.drop (i₁ + 1))]
    congr 1
    rw [List.drop_drop, show i₁ + 1 + (i₂ - i₁ - 1) = i₂ from by omega,
      List.drop_eq_getElem_cons h2, List.getD_eq_getElem _ _ h2]
  have htl : (v.take i₁).length = i₁ := by rw [List.length_take]; omega
  have hCl : ((v.drop (i₁ + 1)).take (i₂ - i₁ - 1)).length = i₂ - i₁ - 1 := by
    rw [List.length_take, List.length_drop]; omega
  unfold match_regex
  conv_lhs => rw [hsplit1, hsplit2]
  rw [mrLoop_single_then hA hm1 hc, htl, mrLoop_clean_append hC (i₁ + 1), hCl,
    show i₁ + 1 + (i₂ - i₁ - 1) = i₂ from by omega, mrLoop_hit_second hm2 hne]
  rw [← hsplit2, ← hsplit1]

/-- When no template matches, `match_regex` returns the no-match error. -/
theorem match_regex_nomatch {v : List RegexM} {line : Str}
    (h : ∀ re ∈ v, re.is_match line = false) :
    match_regex v line = .err (noMatchMsg line) := by
  unfold match_regex
  rw [mrLoop_clean h 0]
  simp

theorem messagesOf_mem_cons {e : RecvEvent} {rest : List RecvEvent} {m : Str}
    (h : m ∈ messagesOf rest) : m ∈ messagesOf (e :: rest) := by
  unfold messagesOf at h ⊢
  rw [List.filterMap_cons]
  cases hfe : (match e with
    | RecvEvent.Ok (Request.Parse msg) => some msg
    | _ => none) with
  | none => exact h
  | some b => exact List.mem_cons_of_mem _ h

theorem messagesOf_head {msg : Str} {rest : List RecvEvent} :
    msg ∈ messagesOf (RecvEvent.Ok (Request.Parse msg) :: rest) := by
  unfold messagesOf
  rw [List.filterMap_cons]
  exact List.mem_cons_self _ _

/-- Every response a worker sends comes from a successful `match_regex` run
on a message carried by some `Parse` request of its trace, with the matched
index cast to `u16`. -/
theorem worker_loop_responses {rv : List RegexM} :
    ∀ evs : List RecvEvent, ∀ resp ∈ (worker_loop rv evs).1,
      resp.msg ∈ messagesOf evs ∧
        ∃ i, match_regex rv resp.msg = .ok i resp.msk ∧
          resp.idx = i.toNat % 65536 := by
  intro evs
  induction evs with
  | nil => intro resp h; simp [worker_loop] at h
  | cons e rest ih =>
    intro resp h
    cases e with
    | Ok r =>
      cases r with
      | Parse msg =>
        cases hm : match_regex rv msg with
        | ok i msk =>
          rw [worker_loop, hm] at h
          rcases List.mem_cons.mp h with rfl | htail
          · exact ⟨messagesOf_head, i, by simpa using hm, rfl⟩
          · obtain ⟨hmem, hrest⟩ := ih resp htail
            exact ⟨messagesOf_mem_cons hmem, hrest⟩
        | err e =>
          rw [worker_loop, hm] at h
          obtain ⟨hmem, hrest⟩ := ih resp h
          exact ⟨messagesOf_mem_cons hmem, hrest⟩
        | aborted =>
          rw [worker_loop, hm] at h
          simp at h
      | EndOfStream => simp [worker_loop] at h
    | NoMessage =>
      rw [worker_loop] at h
      obtain ⟨hmem, hrest⟩ := ih resp h
      exact ⟨messagesOf_mem_cons hmem, hrest⟩
    | NoSender => simp [worker_loop] at h

/-- A worker's loop breaks out normally only after dequeuing an
`EndOfStream` request. -/
theorem worker_loop_finished {rv : List RegexM} :
    ∀ evs : List RecvEvent, (worker_loop rv evs).2 = .finished →
      RecvEvent.Ok Request.EndOfStream ∈ evs := by
  intro evs
  induction evs with
  | nil => intro h; simp [worker_loop] at h
  | cons e rest ih =>
    intro h
    cases e with
    | Ok r =>
      cases r with
      | Parse msg =>
        cases hm : match_regex rv msg with
        | ok i msk =>
          rw [worker_loop, hm] at h
          simp at h
          exact List.mem_cons_of_mem _ (ih h)
        | err e =>
          rw [worker_loop, hm] at h
          exact List.mem_cons_of_mem _ (ih h)
        | aborted =>
          rw [worker_loop, hm] at h
          simp at h
      | EndOfStream => exact List.mem_cons_self _ _
    | NoMessage =>
      rw [worker_loop] at h
      exact List.mem_cons_of_mem _ (ih h)
    | NoSender => simp [worker_loop] at h

/-- A `NoSender` observation before any `EndOfStream` delivery aborts the
worker: the remainder of the trace is never processed and the exit state is
the panic. -/
theorem worker_loop_nosender {rv : List RegexM} :
    ∀ pre rest : List RecvEvent, RecvEvent.Ok Request.EndOfStream ∉ pre →
      (∀ msg : Str, RecvEvent.Ok (Request.Parse msg) ∈ pre →
        match_regex rv msg ≠ .aborted) →
      worker_loop rv (pre ++ RecvEvent.NoSender :: rest) =
        worker_loop rv (pre ++ [RecvEvent.NoSender]) ∧
      (worker_loop rv (pre ++ RecvEvent.NoSender :: rest)).2 = .aborted := by
  intro pre
  induction pre with
  | nil => intro rest _ _; exact ⟨rfl, rfl⟩
  | cons e t ih =>
    intro rest h1 h2
    have h1t : RecvEvent.Ok Request.EndOfStream ∉ t :=
      fun hm => h1 (List.mem_cons_of_mem _ hm)
    have h2t : ∀ msg : Str, RecvEvent.Ok (Request.Parse msg) ∈ t →
        match_regex rv msg ≠ .aborted :=
      fun msg hm => h2 msg (List.mem_cons_of_mem _ hm)
    obtain ⟨ihe, ihex⟩ := ih rest h1t h2t
    cases e with
    | Ok r =>
      cases r with
      | Parse msg =>
        cases hm : match_regex rv msg with
        | ok i msk =>
          constructor
          · rw [List.cons_append, worker_loop, hm, List.cons_append,
              worker_loop, hm, ihe]
          · rw [List.cons_append, worker_loop, hm]
            simpa using ihex
        | err e =>
          constructor
          · rw [List.cons_append, worker_loop, hm, List.cons_append,
              worker_loop, hm, ihe]
          · rw [List.cons_append, worker_loop, hm]
            exact ihex
        | aborted =>
          exact absurd hm (h2 msg (List.mem_cons_self _ _))
      | EndOfStream =>
        exact absurd (List.mem_cons_self _ _) h1
    | NoMessage =>
      constructor
      · rw [List.cons_append, worker_loop, List.cons_append, worker_loop, ihe]
      · rw [List.cons_append, worker_loop]
        exact ihex
    | NoSender => exact ⟨rfl, rfl⟩

/-- Successful run of the `load_regex` loop: when every anchored line
compiles, the result holds exactly the compiled anchored patterns, in
order. -/
theorem load_regex_go_ok (compile : Str → Option RegexM) :
    ∀ (lines : List Str) (off : Nat),
      (∀ l ∈ lines, (compile (anchor l)).isSome = true) →
      ∃ v, load_regex_go compile lines off = .ok v ∧ v.length = lines.length ∧
        ∀ j, j < lines.length →
          compile (anchor (lines.getD j [])) = some (v.getD j default) := by
  intro lines
  induction lines with
  | nil =>
    intro off _
    exact ⟨[], rfl, rfl, fun j hj => absurd hj (by simp)⟩
  | cons l rest ih =>
    intro off h
    obtain ⟨re, hre⟩ := Option.isSome_iff_exists.mp (h l (List.mem_cons_self _ _))
    obtain ⟨w, hw, hwl, hwg⟩ :=
      ih (off + 1) (fun l₂ hl₂ => h l₂ (List.mem_cons_of_mem _ hl₂))
    refine ⟨re :: w, ?_, by simp [hwl], ?_⟩
    · rw [load_regex_go, hre, hw]
      rfl
    · intro j hj
      cases j with
      | zero => simpa using hre
      | succ k =>
        have hk : k < rest.length := by
          rw [List.length_cons] at hj; omega
        simpa using hwg k hk

/-- Failing run of the `load_regex` loop: the first line whose anchored form
does not compile aborts with its (offset) index. -/
theorem load_regex_go_err (compile : Str → Option RegexM) :
    ∀ (lines : List Str) (off i : Nat), i < lines.length →
      compile (anchor (lines.getD i [])) = none →
      (∀ j, j < i → (compile (anchor (lines.getD j []))).isSome = true) →
      load_regex_go compile lines off = .error (off + i) := by
  intro lines
  induction lines with
  | nil => intro off i hi; exact absurd hi (by simp)
  | cons l rest ih =>
    intro off i hi hnone hprev
    cases i with
    | zero =>
      rw [load_regex_go]
      rw [show compile (anchor l) = none from by simpa using hnone]
      rfl
    | succ k =>
      obtain ⟨re, hre⟩ := Option.isSome_iff_exists.mp
        (by simpa using hprev 0 (by omega))
      rw [load_regex_go, hre]
      have hk : k < rest.length := by
        rw [List.length_cons] at hi; omega
      rw [ih (off + 1) k hk (by simpa using hnone)
        (fun j hj => by simpa using hprev (j + 1) (by omega))]
      rw [show off + 1 + k = off + (k + 1) from by omega]
      rfl

/-- C1: for every template bank and every message such that exactly one
template in the bank fully matches the message (under the regex-crate
contract `capsOkAt`), `match_regex` returns success with that template's
index and a mask whose '1' positions are exactly the union of that
template's capture-group spans on the message, every other position '0',
and the mask's length equal to the message's length.  The witness
instantiates it on the spec's example bank `[^foo (\d+)$, ^bar (\w+)$]` and
message `"foo 123"`, giving index 0 and mask `"0000111"`. -/
theorem c1_unique_match_mask (v : List RegexM) (line : Str) (i₀ : Nat)
    (hok : v.all (fun re => capsOkAt re line) = true)
    (hi : i₀ < v.length)
    (hm : (v.getD i₀ default).is_match line = true)
    (huni : ∀ j, j < v.length → (v.getD j default).is_match line = true → j = i₀) :
    ∃ caps mask, (v.getD i₀ default).captures line = some caps ∧
      match_regex v line = .ok (Int.ofNat i₀) mask ∧
      mask.length = line.length ∧
      ∀ j, j < line.length →
        (mask.getD j ' ' = '1' ↔ inCapSpan caps j = true) ∧
        (inCapSpan caps j = false → mask.getD j ' ' = '0') := by
  obtain ⟨caps, hc, hmr⟩ := match_regex_unique hok hi hm huni
  have hcap : capsOkAt (v.getD i₀ default) line = true := by
    have := List.all_eq_true.mp hok (v.getD i₀ default)
    exact this (by rw [List.getD_eq_getElem _ _ hi]; exact List.getElem_mem hi)
  obtain ⟨caps', hc', hbounds⟩ := capsOkAt_spec hcap hm
  have hcc : caps' = caps := by
    rw [hc] at hc'
    exact (Option.some.inj hc').symm
  rw [hcc] at hbounds
  have hb1 : ∀ sp ∈ caps.drop 1, spanOk line.length sp = true :=
    fun sp hsp => hbounds sp (List.mem_of_mem_drop hsp)
  obtain ⟨hlen, hget⟩ := @mask_spec line caps hb1
  refine ⟨caps, applyCaps caps (List.replicate line.length '0'), hc, hmr, hlen, ?_⟩
  intro j hj
  rw [hget j hj]
  cases hic : inCapSpan caps j with
  | true => simp [hic]
  | false => simp [hic]

/-- Witness for C1: the spec's example bank and message, exercised through
the theorem, produce success with index 0 and mask `"0000111"`. -/
theorem c1_witness :
    (∃ caps mask, (exBank.getD 0 default).captures ("foo 123".data) = some caps ∧
      match_regex exBank ("foo 123".data) = .ok (Int.ofNat 0) mask ∧
      mask.length = ("foo 123".data : Str).length ∧
      ∀ j, j < ("foo 123".data : Str).length →
        (mask.getD j ' ' = '1' ↔ inCapSpan caps j = true) ∧
        (inCapSpan caps j = false → mask.getD j ' ' = '0')) ∧
    match_regex exBank ("foo 123".data) = .ok 0 ("0000111".data) :=
  ⟨c1_unique_match_mask exBank ("foo 123".data) 0 (by decide) (by decide)
    (by decide) (by decide), by decide⟩

/-- C2 (amended): when two or more templates fully match the message — the
first two matching indices being `i₁ < i₂` — `match_regex` returns an
ambiguous-match ("double match") failure that names the message and the
patterns of templates `i₁` and `i₂` only, and never returns a success; the
scan does not stop at the first match, but it returns as soon as the second
matching template is found instead of continuing over the remaining
templates. -/
theorem c2_double_match (v : List RegexM) (line : Str) (i₁ i₂ : Nat)
    (h12 : i₁ < i₂) (h2 : i₂ < v.length)
    (hm1 : (v.getD i₁ default).is_match line = true)
    (hm2 : (v.getD i₂ default).is_match line = true)
    (hclean : ∀ j, j < i₂ → j ≠ i₁ → (v.getD j default).is_match line = false)
    (hcaps : capsOkAt (v.getD i₁ default) line = true) :
    match_regex v line = .err ("double match\n".data ++ line ++ "\n".data ++
      (v.getD i₁ default).pattern ++ "\n".data ++ (v.getD i₂ default).pattern) ∧
    ∀ i msk, match_regex v line ≠ .ok i msk := by
  have h := match_regex_double h12 h2 hm1 hm2 hclean hcaps
  have hmsg : doubleMatchMsg v line (Int.ofNat i₁) i₂ =
      "double match\n".data ++ line ++ "\n".data ++
        (v.getD i₁ default).pattern ++ "\n".data ++ (v.getD i₂ default).pattern := rfl
  refine ⟨by rw [h, hmsg], ?_⟩
  intro i msk hok
  rw [h] at hok
  exact MatchResult.noConfusion hok

/-- Witness for C2 on the spec's example bank `[^foo \d+$, ^foo (\d+)$]`
and message `"foo 123"`: both templates match and the double-match failure
names both patterns. -/
theorem c2_witness :
    match_regex [fooPlainRe, fooCapRe] ("foo 123".data) =
      .err ("double match\n".data ++ "foo 123".data ++ "\n".data ++
        ([fooPlainRe, fooCapRe].getD 0 default).pattern ++ "\n".data ++
        ([fooPlainRe, fooCapRe].getD 1 default).pattern) ∧
    ∀ i msk, match_regex [fooPlainRe, fooCapRe] ("foo 123".data) ≠ .ok i msk :=
  c2_double_match [fooPlainRe, fooCapRe] ("foo 123".data) 0 1 (by decide)
    (by decide) (by decide) (by decide) (by decide) (by decide)

/-- Counterexample for C2 as stated: in the bank
`[^foo \d+$, ^foo (\d+)$, ^foo 123$]` all three templates fully match
`"foo 123"`, yet the failure `match_regex` returns names only the first two
patterns — the third matching template's pattern does not occur anywhere in
the error text, refuting "names all matching template indices" and the
claim that ambiguity detection checks all templates. -/
theorem c2_counterexample :
    ambBank.all (fun re => re.is_match ("foo 123".data)) = true ∧
    match_regex ambBank ("foo 123".data) =
      .err ("double match\nfoo 123\n^foo \\d+$\n^foo (\\d+)$".data) ∧
    containsSeq (ambBank.getD 0 default).pattern
      ("double match\nfoo 123\n^foo \\d+$\n^foo (\\d+)$".data) = true ∧
    containsSeq (ambBank.getD 1 default).pattern
      ("double match\nfoo 123\n^foo \\d+$\n^foo (\\d+)$".data) = true ∧
    containsSeq (ambBank.getD 2 default).pattern
      ("double match\nfoo 123\n^foo \\d+$\n^foo (\\d+)$".data) = false := by
  refine ⟨by decide, by decide, by decide, by decide, by decide⟩

/-- C3: after `end_of_stream()` on a controller whose queue holds no
shutdown token yet (correct use: it is called once, after the submits),
exactly one `EndOfStream` request per worker sits on the fan-out queue — the
token count equals the pool's worker count (`join_handles`, which
`start_thread_pool` sets to the requested worker count) — and a worker's
loop exits normally only by receiving such a request. -/
theorem c3_end_of_stream (p : ThreadPoolInput) (rv : List RegexM)
    (evs : List RecvEvent) (regex_vec : List RegexM) (wc : Nat)
    (hp : p.input.count Request.EndOfStream = 0) :
    (p.end_of_stream).input.count Request.EndOfStream = p.join_handles ∧
    (start_thread_pool regex_vec wc).join_handles = wc ∧
    ((worker_loop rv evs).2 = .finished → RecvEvent.Ok Request.EndOfStream ∈ evs) := by
  refine ⟨?_, rfl, worker_loop_finished evs⟩
  unfold ThreadPoolInput.end_of_stream
  simp [List.count_append, hp, List.count_replicate]

/-- Witness for C3: a four-worker pool with one submitted job gets exactly
four shutdown tokens, and a finished trace contains the shutdown request. -/
theorem c3_witness :
    (({ input := [Request.Parse ("a".data)], join_handles := 4 } :
        ThreadPoolInput).end_of_stream).input.count Request.EndOfStream =
      ({ input := [Request.Parse ("a".data)], join_handles := 4 } :
        ThreadPoolInput).join_handles ∧
    (start_thread_pool [] 4).join_handles = 4 ∧
    ((worker_loop [] [RecvEvent.NoMessage, RecvEvent.Ok Request.EndOfStream]).2 =
        .finished →
      RecvEvent.Ok Request.EndOfStream ∈
        [RecvEvent.NoMessage, RecvEvent.Ok Request.EndOfStream]) :=
  c3_end_of_stream { input := [Request.Parse ("a".data)], join_handles := 4 }
    [] [RecvEvent.NoMessage, RecvEvent.Ok Request.EndOfStream] [] 4 (by decide)

/-- C4: a call of the result iterator's `next` that completes either yields
a buffered `Response` (popped from the channel) or, only once every sender
handle has disconnected and the buffer is drained, the terminal `None`,
leaving the state unchanged so that every later call returns `None` again;
while some producer is connected it never returns `None`. -/
theorem c4_iter_next (st : ChannelState) (out : Option Response × ChannelState)
    (h : iter_next st = some out) :
    (out.1 = none → st.connected = false ∧ st.buffer = [] ∧ out.2 = st) ∧
    (∀ r st₂, out = (some r, st₂) →
      st.buffer = r :: st₂.buffer ∧ st₂.connected = st.connected) ∧
    (st.connected = true → ∃ r st₂, out = (some r, st₂)) ∧
    (∀ st₃ : ChannelState, st₃.connected = false → st₃.buffer = [] →
      iter_next st₃ = some (none, st₃)) := by
  have hterm : ∀ st₃ : ChannelState, st₃.connected = false → st₃.buffer = [] →
      iter_next st₃ = some (none, st₃) := by
    intro st₃ h3c h3b
    unfold iter_next mpsc_recv
    rw [h3b, h3c]
    simp
  obtain ⟨buffer, connected⟩ := st
  cases buffer with
  | nil =>
    cases connected with
    | false =>
      unfold iter_next mpsc_recv at h
      simp at h
      refine ⟨fun _ => ⟨rfl, rfl, by rw [← h]⟩, ?_, ?_, hterm⟩
      · intro r st₂ hro
        rw [hro] at h
        simp at h
      · intro hc
        exact absurd hc (by simp)
    | true =>
      unfold iter_next mpsc_recv at h
      simp at h
  | cons r rest =>
    unfold iter_next mpsc_recv at h
    simp at h
    refine ⟨?_, ?_, ?_, hterm⟩
    · intro h1
      rw [← h] at h1
      simp at h1
    · intro r₂ st₂ hro
      rw [hro] at h
      obtain ⟨hr, hst⟩ := Prod.mk.injEq .. ▸ h
      refine ⟨?_, ?_⟩
      · rw [← hst]
        simp [Option.some.inj hr]
      · rw [← hst]
    · intro _
      exact ⟨r, _, h.symm⟩

/-- Witness for C4 at the drained, disconnected channel: `next` returns the
terminal `None` and leaves the state unchanged. -/
theorem c4_witness :
    iter_next { buffer := [], connected := false } =
      some (none, { buffer := [], connected := false }) :=
  (c4_iter_next { buffer := [], connected := false }
    (none, { buffer := [], connected := false }) rfl).2.2.2
    { buffer := [], connected := false } rfl rfl

/-- C5: when a worker dequeues `Parse(message)`: a successful match pushes
exactly one `Response` (and the loop continues on the rest of the trace
unchanged); an ambiguous-match or no-match failure — including the case
where zero templates match — pushes nothing, drops the message and leaves
the loop to continue exactly as if the request had not been there: no
retry and no process failure. -/
theorem c5_parse_handling (rv : List RegexM) (msg : Str) (rest : List RecvEvent) :
    (∀ i msk, match_regex rv msg = .ok i msk →
      worker_loop rv (RecvEvent.Ok (Request.Parse msg) :: rest) =
        ({ msg := msg, msk := msk, idx := i.toNat % 65536 } ::
            (worker_loop rv rest).1,
          (worker_loop rv rest).2)) ∧
    (∀ e, match_regex rv msg = .err e →
      worker_loop rv (RecvEvent.Ok (Request.Parse msg) :: rest) =
        worker_loop rv rest) ∧
    ((∀ re ∈ rv, re.is_match msg = false) →
      match_regex rv msg = .err (noMatchMsg msg) ∧
      worker_loop rv (RecvEvent.Ok (Request.Parse msg) :: rest) =
        worker_loop rv rest) := by
  refine ⟨?_, ?_, ?_⟩
  · intro i msk hm
    rw [worker_loop, hm]
  · intro e hm
    rw [worker_loop, hm]
  · intro hn
    have hm := match_regex_nomatch hn
    exact ⟨hm, by rw [worker_loop, hm]⟩

/-- Witness for C5: on the example bank, `"xyz"` matches no template — the
worker logs and drops it, emitting nothing — while `"foo 123"` produces
exactly one response. -/
theorem c5_witness :
    (match_regex exBank ("xyz".data) = .err (noMatchMsg ("xyz".data)) ∧
      worker_loop exBank (RecvEvent.Ok (Request.Parse ("xyz".data)) :: []) =
        worker_loop exBank []) ∧
    worker_loop exBank (RecvEvent.Ok (Request.Parse ("foo 123".data)) :: []) =
      ({ msg := "foo 123".data, msk := "0000111".data,
          idx := (0 : Int).toNat % 65536 } :: (worker_loop exBank []).1,
        (worker_loop exBank []).2) :=
  ⟨(c5_parse_handling exBank ("xyz".data) []).2.2 (by decide),
    (c5_parse_handling exBank ("foo 123".data) []).1 0 ("0000111".data) (by decide)⟩

/-- C6: every `Response` a worker emits (i.e. every successful outcome of
`match_regex`, under the regex-crate contract for the messages of the
trace) has a mask whose length equals the message's length, whose
characters are all '0' or '1', and whose '1' positions lie inside some
capture-group span of the matched template. -/
theorem c6_response_invariant (rv : List RegexM) (evs : List RecvEvent)
    (hok : ∀ msg ∈ messagesOf evs, rv.all (fun re => capsOkAt re msg) = true) :
    ∀ resp ∈ (worker_loop rv evs).1,
      resp.msk.length = resp.msg.length ∧
      (∀ c ∈ resp.msk, c = '0' ∨ c = '1') ∧
      ∃ i₀ caps, i₀ < rv.length ∧ resp.idx = i₀ % 65536 ∧
        (rv.getD i₀ default).captures resp.msg = some caps ∧
        ∀ j, j < resp.msk.length → resp.msk.getD j ' ' = '1' →
          inCapSpan caps j = true := by
  intro resp hresp
  obtain ⟨hmem, i, hmr, hidx⟩ := worker_loop_responses evs resp hresp
  obtain ⟨i₀, caps, hieq, hi0, hm0, _, hc0, hmask⟩ := match_regex_ok_inv hmr
  have hcap : capsOkAt (rv.getD i₀ default) resp.msg = true := by
    have := List.all_eq_true.mp (hok resp.msg hmem) (rv.getD i₀ default)
    exact this (by rw [List.getD_eq_getElem _ _ hi0]; exact List.getElem_mem hi0)
  obtain ⟨caps', hc', hbounds⟩ := capsOkAt_spec hcap hm0
  have hcc : caps' = caps := by
    rw [hc0] at hc'
    exact (Option.some.inj hc').symm
  rw [hcc] at hbounds
  have hb1 : ∀ sp ∈ caps.drop 1, spanOk resp.msg.length sp = true :=
    fun sp hsp => hbounds sp (List.mem_of_mem_drop hsp)
  obtain ⟨hlen, hget⟩ := @mask_spec resp.msg caps hb1
  rw [← hmask] at hlen hget
  refine ⟨hlen, ?_, i₀, caps, hi0, ?_, hc0, ?_⟩
  · intro c hc
    obtain ⟨j, hj, hjeq⟩ := List.getElem_of_mem hc
    have hjm : j < resp.msg.length := by omega
    have hgj := hget j hjm
    rw [List.getD_eq_getElem _ _ hj] at hgj
    rw [← hjeq, hgj]
    cases hic : inCapSpan caps j with
    | true => simp [hic]
    | false => simp [hic]
  · rw [hidx, hieq]
    rfl
  · intro j hj h1
    have hgj := hget j (by omega)
    rw [hgj] at h1
    cases hic : inCapSpan caps j with
    | true => rfl
    | false => rw [hic] at h1; simp at h1

/-- Witness for C6 at the example run: the single emitted response carries
message `"foo 123"`, mask `"0000111"` and id 0, and satisfies the
invariant. -/
theorem c6_witness :
    exResp.msk.length = exResp.msg.length ∧
    (∀ c ∈ exResp.msk, c = '0' ∨ c = '1') ∧
    ∃ i₀ caps, i₀ < exBank.length ∧ exResp.idx = i₀ % 65536 ∧
      (exBank.getD i₀ default).captures exResp.msg = some caps ∧
      ∀ j, j < exResp.msk.length → exResp.msk.getD j ' ' = '1' →
        inCapSpan caps j = true :=
  c6_response_invariant exBank exEvs (by decide) exResp (by decide)

/-- C7: `load_regex` anchors every input pattern line to a full-string
match (wrapping it with `^` and `$`) before compiling it; when every
anchored line compiles the bank holds exactly those compiled anchored
patterns in order, and otherwise the run aborts reporting the index of the
first offending line. -/
theorem c7_load_regex (compile : Str → Option RegexM) (lines : List Str) :
    ((∀ l ∈ lines, (compile (anchor l)).isSome = true) →
      ∃ v, load_regex compile lines = .ok v ∧ v.length = lines.length ∧
        ∀ j, j < lines.length →
          compile (anchor (lines.getD j [])) = some (v.getD j default)) ∧
    (∀ i, i < lines.length → compile (anchor (lines.getD i [])) = none →
      (∀ j, j < i → (compile (anchor (lines.getD j []))).isSome = true) →
      load_regex compile lines = .error i) := by
  constructor
  · intro h
    exact load_regex_go_ok compile lines 0 h
  · intro i hi hn hp
    have h := load_regex_go_err compile lines 0 i hi hn hp
    simpa using h

/-- Witness for C7 with a toy compiler accepting patterns of length at most
4: a short line loads (anchored), and a bank whose second anchored line is
too long aborts with index 1. -/
theorem c7_witness :
    (∃ v, load_regex toyCompile [['a', 'b']] = .ok v ∧
      v.length = ([['a', 'b']] : List Str).length ∧
      ∀ j, j < ([['a', 'b']] : List Str).length →
        toyCompile (anchor (([['a', 'b']] : List Str).getD j [])) =
          some (v.getD j default)) ∧
    load_regex toyCompile [['a'], ['a', 'b', 'c']] = .error 1 :=
  ⟨(c7_load_regex toyCompile [['a', 'b']]).1 (by decide),
    (c7_load_regex toyCompile [['a'], ['a', 'b', 'c']]).2 1 (by decide)
      rfl (by decide)⟩

/-- C8: when a worker observes `NoSender` (producer side closed) while no
`EndOfStream` was delivered to it, the loop aborts with the panic — never a
normal exit — and processes nothing further: the condition is fatal, not
recoverable. -/
theorem c8_nosender_abort (rv : List RegexM) (pre rest : List RecvEvent)
    (h1 : RecvEvent.Ok Request.EndOfStream ∉ pre)
    (h2 : ∀ msg : Str, RecvEvent.Ok (Request.Parse msg) ∈ pre →
      match_regex rv msg ≠ .aborted) :
    (worker_loop rv (pre ++ RecvEvent.NoSender :: rest)).2 = .aborted ∧
    (worker_loop rv (pre ++ RecvEvent.NoSender :: rest)).2 ≠ .finished ∧
    worker_loop rv (pre ++ RecvEvent.NoSender :: rest) =
      worker_loop rv (pre ++ [RecvEvent.NoSender]) := by
  obtain ⟨he, hex⟩ := worker_loop_nosender pre rest h1 h2
  refine ⟨hex, ?_, he⟩
  rw [hex]
  simp

/-- Witness for C8: a worker that polls once, then sees the producer gone,
aborts even though a shutdown token would have arrived later in the
trace. -/
theorem c8_witness :
    (worker_loop []
      ([RecvEvent.NoMessage] ++
        RecvEvent.NoSender :: [RecvEvent.Ok Request.EndOfStream])).2 =
      .aborted ∧
    (worker_loop []
      ([RecvEvent.NoMessage] ++
        RecvEvent.NoSender :: [RecvEvent.Ok Request.EndOfStream])).2 ≠
      .finished ∧
    worker_loop []
      ([RecvEvent.NoMessage] ++
        RecvEvent.NoSender :: [RecvEvent.Ok Request.EndOfStream]) =
      worker_loop [] ([RecvEvent.NoMessage] ++ [RecvEvent.NoSender]) :=
  c8_nosender_abort [] [RecvEvent.NoMessage] [RecvEvent.Ok Request.EndOfStream]
    (by decide) (fun msg hm => by simp at hm)

/-- C9: the template id of an emitted `Response` is the matched template's
index cast to `u16`, i.e. reduced modulo 2^16; for a bank of at most 65536
templates the reported id equals the matched index exactly (for larger
banks the general modulo equation applies to the indices of 65536 and
above). -/
theorem c9_idx_cast (rv : List RegexM) (evs : List RecvEvent) (resp : Response)
    (h : resp ∈ (worker_loop rv evs).1) :
    ∃ i₀, i₀ < rv.length ∧
      match_regex rv resp.msg = .ok (Int.ofNat i₀) resp.msk ∧
      resp.idx = i₀ % 65536 ∧
      (rv.length ≤ 65536 → resp.idx = i₀) := by
  obtain ⟨_, i, hmr, hidx⟩ := worker_loop_responses evs resp h
  obtain ⟨i₀, caps, hieq, hi0, _, _, _, _⟩ := match_regex_ok_inv hmr
  rw [hieq] at hmr
  have hmod : resp.idx = i₀ % 65536 := by
    rw [hidx, hieq]
    rfl
  refine ⟨i₀, hi0, hmr, hmod, ?_⟩
  intro hle
  rw [hmod]
  exact Nat.mod_eq_of_lt (by omega)

/-- Witness for C9 at the example run: the emitted response's id 0 equals
the matched index 0 exactly (bank size 2 ≤ 65536). -/
theorem c9_witness :
    ∃ i₀, i₀ < exBank.length ∧
      match_regex exBank exResp.msg = .ok (Int.ofNat i₀) exResp.msk ∧
      exResp.idx = i₀ % 65536 ∧
      (exBank.length ≤ 65536 → exResp.idx = i₀) :=
  c9_idx_cast exBank exEvs exResp (by decide)

/-- C10: the extractor closures for `"proxifier"`, `"android"` and
`"apache"` slice their input at the fixed offsets 17, 33 and 28 with no
length guard: on any shorter line they panic instead of returning `None`,
and on any line at least that long the slice succeeds — totality requires
every line to reach the offset. -/
theorem c10_extractor_slicing (line : Str) :
    (line.length < 17 → ∃ e, proxifier_extractor line = .error e) ∧
    (17 ≤ line.length → ∃ r, proxifier_extractor line = .ok r) ∧
    (line.length < 33 → ∃ e, android_extractor line = .error e) ∧
    (33 ≤ line.length → ∃ r, android_extractor line = .ok r) ∧
    (line.length < 28 → ∃ e, apache_extractor line = .error e) ∧
    (28 ≤ line.length → ∃ r, apache_extractor line = .ok r) := by
  unfold proxifier_extractor android_extractor apache_extractor sliceFrom
  refine ⟨?_, ?_, ?_, ?_, ?_, ?_⟩ <;> intro h
  · rw [if_neg (by omega)]
    exact ⟨_, rfl⟩
  · rw [if_pos (by omega)]
    exact ⟨_, rfl⟩
  · rw [if_neg (by omega)]
    exact ⟨_, rfl⟩
  · rw [if_pos (by omega)]
    exact ⟨_, rfl⟩
  · rw [if_neg (by omega)]
    exact ⟨_, rfl⟩
  · rw [if_pos (by omega)]
    exact ⟨_, rfl⟩

/-- Witness for C10: a 10-byte line panics in all three extractors, a
40-byte line panics in none. -/
theorem c10_witness :
    (∃ e, proxifier_extractor (List.replicate 10 'a') = .error e) ∧
    (∃ r, proxifier_extractor (List.replicate 40 'a') = .ok r) ∧
    (∃ e, android_extractor (List.replicate 10 'a') = .error e) ∧
    (∃ r, android_extractor (List.replicate 40 'a') = .ok r) ∧
    (∃ e, apache_extractor (List.replicate 10 'a') = .error e) ∧
    (∃ r, apache_extractor (List.replicate 40 'a') = .ok r) :=
  ⟨(c10_extractor_slicing (List.replicate 10 'a')).1 (by decide),
    (c10_extractor_slicing (List.replicate 40 'a')).2.1 (by decide),
    (c10_extractor_slicing (List.replicate 10 'a')).2.2.1 (by decide),
    (c10_extractor_slicing (List.replicate 40 'a')).2.2.2.1 (by decide),
    (c10_extractor_slicing (List.replicate 10 'a')).2.2.2.2.1 (by decide),
    (c10_extractor_slicing (List.replicate 40 'a')).2.2.2.2.2 (by decide)⟩

end LogPM
